import Mathlib

/-!
Verification of the speak-anywhere daemon core against its specification.

The development shallowly embeds the daemon's core components:
  - the SPSC ring buffer                     (src/daemon/ring_buffer.hpp)
  - the WAV encoder                          (src/daemon/wav_encoder.hpp)
  - the session state machine                (src/daemon/session.cpp / session.hpp)
  - the IPC command codec                    (src/daemon/ipc_server.cpp)
  - the command handlers and completion path (src/daemon/daemon_core.cpp)
  - the dispatcher event step                (EventLoop::run / LinuxEventLoop::run)

Machine integers are modelled as Nat with explicit reductions modulo 2^32
where the C++ code computes in uint32.  Bytes are Nat values; int16_t
samples appear either as 16-bit patterns (Nat below 65536, in the ring) or
as signed values (Int in [-32768, 32768), in the WAV layer).  C++ doubles
(durations) are modelled as exact rationals.  External collaborators
(the audio producer, the JSON library's parser, the transcriber backend,
the output-adapter factory and the agent detector) are parameters of the
embedded functions, exactly at the points where the daemon calls out to
them.
-/

set_option maxHeartbeats 1000000

namespace SpeakAnywhere

/-! ## Ring buffer (src/daemon/ring_buffer.hpp)

The C++ ring keeps monotonically increasing cursors `write_pos_` and
`read_pos_` over a byte array of fixed capacity; actual offsets are taken
modulo the capacity.  The two-chunk `memcpy` of `write`/`read` is modelled
byte by byte: chunk byte j lands at offset (start + j) % capacity, which is
exactly what the pair of copies does. -/

/-- Byte-by-byte rendition of the circular two-chunk memcpy of
`RingBuffer::write`: byte j of `d` is stored at offset (pos + j) mod the
buffer length. -/
def circSet (buf : List Nat) (pos : Nat) : List Nat → List Nat
  | [] => buf
  | b :: rest => circSet (buf.set (pos % buf.length) b) (pos + 1) rest

/-- Byte-by-byte rendition of the circular two-chunk memcpy of
`RingBuffer::read`: byte j of the result is the byte at offset
(pos + j) mod the buffer length. -/
def circGet (buf : List Nat) (pos n : Nat) : List Nat :=
  (List.range n).map (fun j => buf.getD ((pos + j) % buf.length) 0)

structure RingBuffer where
  buf : List Nat
  writePos : Nat
  readPos : Nat
deriving DecidableEq

/-- `capacity_` always equals `buf_.size()` in the C++ class (both are set
once in the constructor), so the model derives it. -/
def RingBuffer.capacity (rb : RingBuffer) : Nat := rb.buf.length

/-- RingBuffer::write (ring_buffer.hpp, lines 18-36).  Takes the data to
write (the C++ call passes a pointer plus `len`; here `data` is that byte
sequence and `len = data.length`).  Returns the updated ring and the
number of bytes accepted. -/
def RingBuffer.write (rb : RingBuffer) (data : List Nat) : RingBuffer × Nat :=
  let w := rb.writePos
  let r := rb.readPos
  let avail := rb.capacity - (w - r)
  let toWrite := min data.length avail
  if toWrite = 0 then (rb, 0)
  else ({ rb with buf := circSet rb.buf w (data.take toWrite), writePos := w + toWrite }, toWrite)

/-- RingBuffer::read (ring_buffer.hpp, lines 39-57). -/
def RingBuffer.read (rb : RingBuffer) (maxLen : Nat) : RingBuffer × List Nat :=
  let r := rb.readPos
  let w := rb.writePos
  let avail := w - r
  let toRead := min maxLen avail
  if toRead = 0 then (rb, [])
  else ({ rb with readPos := r + toRead }, circGet rb.buf r toRead)

/-- Reassemble the bytes read by `drain_all` into the int16_t vector the
C++ returns: consecutive little-endian pairs, each a 16-bit pattern. -/
def pairLE : List Nat → List Nat
  | b0 :: b1 :: rest => (b0 + 256 * b1) :: pairLE rest
  | _ => []

/-- RingBuffer::drain_all (ring_buffer.hpp, lines 60-72): take the
available byte count, clear its lowest bit (`avail &= ~size_t(1)`), read
that many bytes and view them as int16_t samples. -/
def RingBuffer.drain_all (rb : RingBuffer) : RingBuffer × List Nat :=
  let avail := rb.writePos - rb.readPos
  let avail2 := avail - avail % 2
  if avail2 = 0 then (rb, [])
  else ((rb.read avail2).1, pairLE (rb.read avail2).2)

def RingBuffer.available (rb : RingBuffer) : Nat := rb.writePos - rb.readPos

def RingBuffer.reset (rb : RingBuffer) : RingBuffer :=
  { rb with writePos := 0, readPos := 0 }

/-! Positional lemmas about the circular copy. -/

theorem circSet_length (d : List Nat) (buf : List Nat) (pos : Nat) :
    (circSet buf pos d).length = buf.length := by
  induction d generalizing buf pos with
  | nil => rfl
  | cons b rest ih => simp [circSet, ih]

theorem add_mod_ne_of_pos_of_lt (pos k L : Nat) (h0 : 0 < k) (hk : k < L) :
    (pos + k) % L ≠ pos % L := by
  intro heq
  have hL : 0 < L := by omega
  have ha : pos % L < L := Nat.mod_lt _ hL
  have hmod : (pos + k) % L = (pos % L + k) % L := by
    conv =>
      lhs
      rw [Nat.add_mod, Nat.mod_eq_of_lt hk]
  rw [hmod] at heq
  rcases Nat.lt_or_ge (pos % L + k) L with hlt | hge
  · rw [Nat.mod_eq_of_lt hlt] at heq; omega
  · rw [Nat.mod_eq_sub_mod hge, Nat.mod_eq_of_lt (by omega)] at heq
    omega

theorem circSet_getElem?_of_ne (d : List Nat) (buf : List Nat) (pos p : Nat)
    (h : ∀ j, j < d.length → (pos + j) % buf.length ≠ p) :
    (circSet buf pos d)[p]? = buf[p]? := by
  induction d generalizing buf pos with
  | nil => rfl
  | cons b rest ih =>
    rw [circSet]
    have hlen : (buf.set (pos % buf.length) b).length = buf.length := by simp
    rw [ih _ _ (by
      intro j hj
      rw [hlen]
      have hh := h (j + 1) (by simpa using Nat.succ_lt_succ hj)
      intro hc
      apply hh
      rw [← hc]
      congr 1
      omega)]
    apply List.getElem?_set_ne
    have := h 0 (by simp)
    simpa using this

theorem circSet_getElem?_at (d : List Nat) (buf : List Nat) (pos i : Nat)
    (hi : i < d.length) (hle : d.length ≤ buf.length) :
    (circSet buf pos d)[(pos + i) % buf.length]? = d[i]? := by
  induction d generalizing buf pos i with
  | nil => simp at hi
  | cons b rest ih =>
    have hL : 0 < buf.length := by
      simp only [List.length_cons] at hle
      omega
    rw [circSet]
    have hlen : (buf.set (pos % buf.length) b).length = buf.length := by simp
    cases i with
    | zero =>
      have hcond : ∀ j, j < rest.length →
          (pos + 1 + j) % (buf.set (pos % buf.length) b).length ≠ (pos + 0) % buf.length := by
        intro j hj
        rw [hlen, Nat.add_zero]
        have h2 : j + 1 < buf.length := by
          simp only [List.length_cons] at hle
          omega
        have hh := add_mod_ne_of_pos_of_lt pos (j + 1) buf.length (Nat.succ_pos j) h2
        intro hc
        apply hh
        have h3 : pos + (j + 1) = pos + 1 + j := by omega
        rw [h3, hc]
        simp
      rw [circSet_getElem?_of_ne rest _ _ _ hcond]
      simp only [Nat.add_zero]
      rw [List.getElem?_set_eq_of_lt b (Nat.mod_lt pos hL)]
      simp
    | succ j =>
      have harith : pos + (j + 1) = pos + 1 + j := by omega
      have h1 : j < rest.length := by
        simp only [List.length_cons] at hi
        omega
      have h2 : rest.length ≤ (buf.set (pos % buf.length) b).length := by
        rw [hlen]
        simp only [List.length_cons] at hle
        omega
      have hih := ih (buf.set (pos % buf.length) b) (pos + 1) j h1 h2
      rw [hlen] at hih
      rw [harith, hih]
      simp

/-- C6: for a ring with cursors W ≥ R and W − R ≤ B, `write` accepts
exactly min(n, B − (W−R)) bytes, copies that prefix of the data into the
circular region (and touches nothing else), advances W by the accepted
count and leaves R and the capacity unchanged; the excess of an
overflowing write is dropped, observed only through the short count. -/
theorem ring_write_spec (rb : RingBuffer) (data : List Nat)
    (h1 : rb.readPos ≤ rb.writePos)
    (h2 : rb.writePos - rb.readPos ≤ rb.capacity) :
    (rb.write data).2 = min data.length (rb.capacity - (rb.writePos - rb.readPos)) ∧
    (rb.write data).1.writePos = rb.writePos + (rb.write data).2 ∧
    (rb.write data).1.readPos = rb.readPos ∧
    (rb.write data).1.capacity = rb.capacity ∧
    (∀ i, i < (rb.write data).2 →
      (rb.write data).1.buf[(rb.writePos + i) % rb.capacity]? = data[i]?) ∧
    (∀ p, (∀ i, i < (rb.write data).2 → (rb.writePos + i) % rb.capacity ≠ p) →
      (rb.write data).1.buf[p]? = rb.buf[p]?) := by
  unfold RingBuffer.write
  by_cases h0 : min data.length (rb.capacity - (rb.writePos - rb.readPos)) = 0
  · rw [if_pos h0]
    refine ⟨h0.symm, by simp, rfl, rfl, ?_, ?_⟩
    · intro i hi
      simp at hi
    · intro p _
      rfl
  · rw [if_neg h0]
    simp only [RingBuffer.capacity] at h0 ⊢
    have htake : (data.take (min data.length (rb.buf.length - (rb.writePos - rb.readPos)))).length
        = min data.length (rb.buf.length - (rb.writePos - rb.readPos)) := by
      rw [List.length_take]
      omega
    have hle : (data.take (min data.length (rb.buf.length - (rb.writePos - rb.readPos)))).length
        ≤ rb.buf.length := by
      rw [htake]
      omega
    refine ⟨trivial, trivial, trivial, ?_, ?_, ?_⟩
    · exact circSet_length _ _ _
    · intro i hi
      have hres := circSet_getElem?_at
        (data.take (min data.length (rb.buf.length - (rb.writePos - rb.readPos))))
        rb.buf rb.writePos i (by rw [htake]; exact hi) hle
      rw [hres, List.getElem?_take_of_lt hi]
    · intro p hp
      exact circSet_getElem?_of_ne _ _ _ _ (by
        intro j hj
        apply hp
        rw [htake] at hj
        exact hj)

/-- C6 witness: a concrete overflowing write.  Capacity 4, two bytes
already pending (W=2, R=0); writing five bytes accepts exactly two. -/
theorem ring_write_spec_witness :
    (RingBuffer.write ⟨[9, 9, 9, 9], 2, 0⟩ [1, 2, 3, 4, 5]).2 = 2 ∧
    (RingBuffer.write ⟨[9, 9, 9, 9], 2, 0⟩ [1, 2, 3, 4, 5]).1.writePos = 4 := by
  have h := ring_write_spec ⟨[9, 9, 9, 9], 2, 0⟩ [1, 2, 3, 4, 5]
    (by decide) (by decide)
  refine ⟨?_, ?_⟩
  · rw [h.1]; decide
  · rw [h.2.1, h.1]; decide

theorem pairLE_length (l : List Nat) : (pairLE l).length = l.length / 2 := by
  induction l using pairLE.induct with
  | case1 b0 b1 rest ih => simp [pairLE, ih]; omega
  | case2 l h => cases l with
    | nil => simp [pairLE]
    | cons a t => cases t with
      | nil => simp [pairLE]
      | cons b u => exact absurd rfl (h a b u)

/-- C7: `drain_all` returns the available bytes rounded down to a multiple
of two, interpreted as 16-bit little-endian samples; a trailing odd byte
stays in the ring, so afterwards fewer than 2 bytes are available. -/
theorem ring_drain_spec (rb : RingBuffer)
    (h1 : rb.readPos ≤ rb.writePos)
    (h2 : rb.writePos - rb.readPos ≤ rb.capacity) :
    (rb.drain_all).2.length = rb.available / 2 ∧
    (rb.drain_all).1.available = rb.available % 2 ∧
    (rb.drain_all).1.available < 2 ∧
    (rb.drain_all).2 = pairLE (circGet rb.buf rb.readPos (2 * (rb.available / 2))) := by
  unfold RingBuffer.drain_all
  have havail : rb.writePos - rb.readPos = rb.available := rfl
  set avail := rb.writePos - rb.readPos with ha
  have h2a : avail - avail % 2 = 2 * (avail / 2) := by omega
  by_cases h0 : avail - avail % 2 = 0
  · simp only [h0, if_pos rfl]
    have : avail ≤ 1 := by omega
    refine ⟨?_, ?_, ?_, ?_⟩
    · simp [RingBuffer.available]; omega
    · simp [RingBuffer.available]; omega
    · simp [RingBuffer.available]; omega
    · have : 2 * (rb.available / 2) = 0 := by
        simp [RingBuffer.available]; omega
      simp [this, circGet, pairLE]
  · simp only [if_neg h0]
    unfold RingBuffer.read
    have hmin : min (avail - avail % 2) (rb.writePos - rb.readPos) = avail - avail % 2 := by
      omega
    simp only [← ha, hmin, if_neg h0]
    refine ⟨?_, ?_, ?_, ?_⟩
    · rw [pairLE_length]
      simp [circGet, RingBuffer.available]
      omega
    · simp [RingBuffer.available]
      omega
    · simp [RingBuffer.available]
      omega
    · rw [h2a, havail]

/-- C7 witness: a ring holding 7 bytes drains to 3 samples and leaves one
byte pending (available afterwards is 1). -/
theorem ring_drain_spec_witness :
    (RingBuffer.drain_all ⟨[1, 0, 2, 0, 3, 0, 7, 9], 7, 0⟩).2.length = 3 ∧
    (RingBuffer.drain_all ⟨[1, 0, 2, 0, 3, 0, 7, 9], 7, 0⟩).1.available = 1 := by
  have h := ring_drain_spec ⟨[1, 0, 2, 0, 3, 0, 7, 9], 7, 0⟩ (by decide) (by decide)
  refine ⟨?_, ?_⟩
  · rw [h.1]; decide
  · rw [h.2.1]; decide

/-! ## WAV framing (src/daemon/wav_encoder.hpp)

`wav::encode` writes a 44-byte RIFF/WAVE header with `w16`/`w32` helpers
(little-endian memcpy of uint16/uint32 values) followed by a memcpy of
`data_size` bytes of the int16_t sample array.  All header arithmetic is
uint32 arithmetic, modelled with explicit reductions modulo 2^32; the
int16_t byte representation is two's-complement little-endian. -/

/-- Little-endian bytes of a uint16 value (the `w16` helper). -/
def u16le (v : Nat) : List Nat := [v % 256, v / 256 % 256]

/-- Little-endian bytes of a uint32 value (the `w32` helper). -/
def u32le (v : Nat) : List Nat :=
  [v % 256, v / 256 % 256, v / 65536 % 256, v / 16777216 % 256]

/-- The 16-bit two's-complement pattern of an int16_t sample value. -/
def sampleBits (s : Int) : Nat := (s % 65536).toNat

namespace wav

/-- wav::encode (wav_encoder.hpp, lines 11-43).  `dataSize` is the uint32
cast of `samples.size() * sizeof(int16_t)`; `byteRate` is computed as
`sample_rate * channels * bits_per_sample / 8` in uint32 arithmetic with
channels = 1 and bits = 16; `fileSize = 36 + data_size` in uint32.  The
final memcpy copies `data_size` bytes of the sample array. -/
def encode (samples : List Int) (sampleRate : Nat) : List Nat :=
  let dataSize := 2 * samples.length % 4294967296
  let byteRate := sampleRate * 16 % 4294967296 / 8
  let fileSize := (36 + dataSize) % 4294967296
  [82, 73, 70, 70] ++ u32le fileSize ++ [87, 65, 86, 69] ++ [102, 109, 116, 32]
    ++ u32le 16 ++ u16le 1 ++ u16le 1 ++ u32le sampleRate ++ u32le byteRate
    ++ u16le 2 ++ u16le 16 ++ [100, 97, 116, 97] ++ u32le dataSize
    ++ (samples.flatMap (fun s => u16le (sampleBits s))).take dataSize

end wav

/-- Modelled from the spec: the canonical mono 16-bit PCM RIFF/WAVE byte
layout that C9 describes, with RIFF chunk size 36 + data size, format
code 1, channels 1, byte rate sample_rate x 2, block align 2, bits per
sample 16, data chunk size 2 x len, followed by all samples little-endian.
It is the comparison point for `wav.encode`. -/
def canonicalWav (samples : List Int) (sampleRate : Nat) : List Nat :=
  [82, 73, 70, 70] ++ u32le (36 + 2 * samples.length) ++ [87, 65, 86, 69]
    ++ [102, 109, 116, 32]
    ++ u32le 16 ++ u16le 1 ++ u16le 1 ++ u32le sampleRate ++ u32le (sampleRate * 2)
    ++ u16le 2 ++ u16le 16 ++ [100, 97, 116, 97] ++ u32le (2 * samples.length)
    ++ samples.flatMap (fun s => u16le (sampleBits s))

/-- Reading a 16-bit little-endian pattern back as a signed sample. -/
def sampleVal (lo hi : Nat) : Int :=
  let v := lo + 256 * hi
  if v < 32768 then (v : Int) else (v : Int) - 65536

/-- Decode consecutive little-endian byte pairs into int16 sample values. -/
def unpairLE : List Nat → List Int
  | b0 :: b1 :: rest => sampleVal b0 b1 :: unpairLE rest
  | _ => []

/-- Parse a WAV byte string produced by the encoder back into its samples:
skip the 44-byte header and decode the PCM payload. -/
def parseWav (bytes : List Nat) : List Int := unpairLE (bytes.drop 44)

theorem sampleBytes_length (samples : List Int) :
    (samples.flatMap (fun s => u16le (sampleBits s))).length = 2 * samples.length := by
  induction samples with
  | nil => rfl
  | cons s rest ih =>
    rw [List.flatMap_cons, List.length_append, ih]
    simp only [u16le, List.length_cons, List.length_nil, List.length_singleton]
    omega

theorem unpairLE_cons (b0 b1 : Nat) (t : List Nat) :
    unpairLE (b0 :: b1 :: t) = sampleVal b0 b1 :: unpairLE t := by
  simp [unpairLE]

theorem unpairLE_flatMap (samples : List Int)
    (h : ∀ x ∈ samples, -32768 ≤ x ∧ x < 32768) :
    unpairLE (samples.flatMap (fun s => u16le (sampleBits s))) = samples := by
  induction samples with
  | nil => rfl
  | cons s rest ih =>
    have hs := h s (by simp)
    have hrest : ∀ x ∈ rest, -32768 ≤ x ∧ x < 32768 := by
      intro x hx
      exact h x (by simp [hx])
    rw [List.flatMap_cons]
    have hu : u16le (sampleBits s) = [sampleBits s % 256, sampleBits s / 256 % 256] := rfl
    rw [hu]
    simp only [List.cons_append, List.nil_append]
    rw [unpairLE_cons, ih hrest]
    congr 1
    have hbits : (sampleBits s : Int) = s % 65536 := by
      unfold sampleBits
      exact Int.toNat_of_nonneg (Int.emod_nonneg s (by norm_num))
    have hlt : sampleBits s < 65536 := by
      have : (s % 65536 : Int) < 65536 := Int.emod_lt_of_pos s (by norm_num)
      omega
    have hrecomb : sampleBits s % 256 + 256 * (sampleBits s / 256 % 256) = sampleBits s := by
      omega
    unfold sampleVal
    simp only [hrecomb]
    have hmod : (s % 65536 : Int) = s ∨ (s % 65536 : Int) = s + 65536 := by
      omega
    rcases hmod with hm | hm
    · have hnn : 0 ≤ s := by
        have : (0 : Int) ≤ s % 65536 := Int.emod_nonneg s (by norm_num)
        omega
      have : sampleBits s < 32768 := by omega
      rw [if_pos this]
      omega
    · have hneg : s < 0 := by omega
      have hge : ¬(sampleBits s < 32768) := by omega
      rw [if_neg hge]
      omega

theorem wavHeader_length (a b c : Nat) (r : Nat) :
    ([82, 73, 70, 70] ++ u32le a ++ [87, 65, 86, 69] ++ [102, 109, 116, 32]
      ++ u32le 16 ++ u16le 1 ++ u16le 1 ++ u32le r ++ u32le b
      ++ u16le 2 ++ u16le 16 ++ [100, 97, 116, 97] ++ u32le c : List Nat).length = 44 := by
  simp [u32le, u16le]

/-- C9 counterexample: at sample rate 2^28 the claim is false.  The byte
rate is computed as `sample_rate * 16 / 8` in uint32 arithmetic, so the
multiplication wraps to 0 and the header's byte-rate field is 0 instead
of sample_rate x 2 = 2^29; the encoder output differs from the canonical
layout the claim describes. -/
theorem wav_encode_counterexample :
    wav.encode [] 268435456 ≠ canonicalWav [] 268435456 := by
  decide

/-- C9 (amended): whenever the uint32 header arithmetic does not overflow
(sample_rate x 16 < 2^32, i.e. sample rate below 2^28, and
36 + 2 x len < 2^32) and every sample is a 16-bit signed value, the
encoder produces exactly the canonical 44 + 2 x len byte RIFF/WAVE image
described by the claim, and parsing the output back yields the original
samples. -/
theorem wav_encode_amended (samples : List Int) (sampleRate : Nat)
    (hpos : 0 < sampleRate)
    (hsr : sampleRate * 16 < 4294967296)
    (hlen : 36 + 2 * samples.length < 4294967296)
    (hrange : ∀ x ∈ samples, -32768 ≤ x ∧ x < 32768) :
    wav.encode samples sampleRate = canonicalWav samples sampleRate ∧
    (wav.encode samples sampleRate).length = 44 + 2 * samples.length ∧
    parseWav (wav.encode samples sampleRate) = samples := by
  have hds : 2 * samples.length % 4294967296 = 2 * samples.length :=
    Nat.mod_eq_of_lt (by omega)
  have hfs : (36 + 2 * samples.length % 4294967296) % 4294967296
      = 36 + 2 * samples.length := by
    rw [hds]
    exact Nat.mod_eq_of_lt hlen
  have hbr : sampleRate * 16 % 4294967296 / 8 = sampleRate * 2 := by
    rw [Nat.mod_eq_of_lt hsr]
    omega
  have htk : (samples.flatMap (fun s => u16le (sampleBits s))).take
      (2 * samples.length % 4294967296) = samples.flatMap (fun s => u16le (sampleBits s)) := by
    rw [hds]
    apply List.take_of_length_le
    rw [sampleBytes_length]
  have henc : wav.encode samples sampleRate = canonicalWav samples sampleRate := by
    simp only [wav.encode, canonicalWav]
    rw [hfs, hbr, htk, hds]
  refine ⟨henc, ?_, ?_⟩
  · rw [henc]
    unfold canonicalWav
    rw [List.length_append, sampleBytes_length]
    simp [u32le, u16le]
  · rw [henc]
    unfold parseWav canonicalWav
    have hform : ([82, 73, 70, 70] ++ u32le (36 + 2 * samples.length) ++ [87, 65, 86, 69]
        ++ [102, 109, 116, 32] ++ u32le 16 ++ u16le 1 ++ u16le 1 ++ u32le sampleRate
        ++ u32le (sampleRate * 2) ++ u16le 2 ++ u16le 16 ++ [100, 97, 116, 97]
        ++ u32le (2 * samples.length)
        ++ samples.flatMap (fun s => u16le (sampleBits s))).drop 44
        = samples.flatMap (fun s => u16le (sampleBits s)) := by
      rw [← wavHeader_length (36 + 2 * samples.length) (sampleRate * 2) (2 * samples.length) sampleRate]
      exact List.drop_left _ _
    rw [hform]
    exact unpairLE_flatMap samples hrange

/-- C9 witness: the amended statement at sample rate 16000 on the sample
list [1, -1, 32767, -32768]. -/
theorem wav_encode_amended_witness :
    parseWav (wav.encode [1, -1, 32767, -32768] 16000) = [1, -1, 32767, -32768] :=
  (wav_encode_amended [1, -1, 32767, -32768] 16000 (by norm_num) (by norm_num)
    (by norm_num) (by decide)).2.2

/-! ## Session state machine (src/daemon/session.cpp, session.hpp)

The C++ `Session` holds a reference to the shared ring and to the audio
producer.  The producer is an external collaborator: whether its
`start()` call succeeds is an input (`captureStarts`); its `stop()` has
no effect on the modelled state. -/

inductive SessionState
  | Idle
  | Recording
  | Transcribing
deriving DecidableEq

structure WindowInfo where
  app_id : String
  window_class : String
  title : String
  pid : Int
  agent : String
  working_dir : String
  context : String
deriving DecidableEq

def emptyWindow : WindowInfo := ⟨"", "", "", 0, "", "", ""⟩

structure Session where
  state : SessionState
  windowContext : WindowInfo
deriving DecidableEq

/-- Session::start_recording (session.cpp, lines 8-24): only from Idle;
resets the ring, asks the producer to start, and on success captures the
snapshot and enters Recording.  Returns the updated session and ring plus
the C++ bool result. -/
def Session.start_recording (s : Session) (rb : RingBuffer) (captureStarts : Bool)
    (w : WindowInfo) : Session × RingBuffer × Bool :=
  if s.state ≠ SessionState.Idle then (s, rb, false)
  else
    let rb2 := rb.reset
    if captureStarts then
      ({ s with state := SessionState.Recording, windowContext := w }, rb2, true)
    else (s, rb2, false)

/-- Session::stop_recording (session.cpp, lines 26-35): outside Recording
returns empty and changes nothing; in Recording stops the producer,
drains the ring and enters Transcribing. -/
def Session.stop_recording (s : Session) (rb : RingBuffer) :
    Session × RingBuffer × List Nat :=
  if s.state ≠ SessionState.Recording then (s, rb, [])
  else
    ({ s with state := SessionState.Transcribing }, (rb.drain_all).1, (rb.drain_all).2)

/-- Session::set_transcribing: an unconditional state write. -/
def Session.set_transcribing (s : Session) : Session :=
  { s with state := SessionState.Transcribing }

/-- Session::set_idle: an unconditional state write. -/
def Session.set_idle (s : Session) : Session :=
  { s with state := SessionState.Idle }

/-- One session operation of claim C3, with the external inputs the
operation consumes (producer start success, snapshot argument). -/
inductive SessionOp
  | start (captureStarts : Bool) (w : WindowInfo)
  | stop
  | setTranscribing
  | setIdle
deriving DecidableEq

def sessionStep (p : Session × RingBuffer) (op : SessionOp) : Session × RingBuffer :=
  match op with
  | SessionOp.start go w =>
      ((p.1.start_recording p.2 go w).1, (p.1.start_recording p.2 go w).2.1)
  | SessionOp.stop =>
      ((p.1.stop_recording p.2).1, (p.1.stop_recording p.2).2.1)
  | SessionOp.setTranscribing => (p.1.set_transcribing, p.2)
  | SessionOp.setIdle => (p.1.set_idle, p.2)

def sessionExec (p : Session × RingBuffer) (ops : List SessionOp) : Session × RingBuffer :=
  ops.foldl sessionStep p

/-- Modelled from the spec: the reference automaton of section 3.  Its
only transitions are Idle to Recording (by a successful start), Recording
to Transcribing (by stop or the orchestrator's explicit write) and
Transcribing to Idle (by completion or reset); any other attempt is
rejected and leaves the state unchanged. -/
def refStep (st : SessionState) (op : SessionOp) : SessionState :=
  match op with
  | SessionOp.start go _ =>
      if st = SessionState.Idle ∧ go then SessionState.Recording else st
  | SessionOp.stop =>
      if st = SessionState.Recording then SessionState.Transcribing else st
  | SessionOp.setTranscribing =>
      if st = SessionState.Recording then SessionState.Transcribing else st
  | SessionOp.setIdle =>
      if st = SessionState.Transcribing then SessionState.Idle else st

def refExec (st : SessionState) (ops : List SessionOp) : SessionState :=
  ops.foldl refStep st

/-- A sequence is well-formed when the orchestrator's unconditional state
writes are used only for the transition the automaton allows:
set_transcribing only in Recording and set_idle only in Transcribing. -/
def wellFormed : SessionState → List SessionOp → Bool
  | _, [] => true
  | st, op :: rest =>
      (match op with
       | SessionOp.setTranscribing => decide (st = SessionState.Recording)
       | SessionOp.setIdle => decide (st = SessionState.Transcribing)
       | _ => true) && wellFormed (refStep st op) rest

def sessionInit : Session := { state := SessionState.Idle, windowContext := emptyWindow }

def ringInit : RingBuffer := ⟨[0, 0, 0, 0], 0, 0⟩

/-- C3 counterexample: the claim is false as stated.  `set_transcribing`
is an unconditional write: invoked from Idle the code moves to
Transcribing, while the reference automaton (which rejects any transition
other than its three edges) stays Idle.  The repository's own test
`SetTranscribingFromIdle` (test_session.cpp) pins the code behaviour. -/
theorem session_automaton_counterexample :
    (sessionExec (sessionInit, ringInit) [SessionOp.setTranscribing]).1.state
        = SessionState.Transcribing ∧
    refExec SessionState.Idle [SessionOp.setTranscribing] = SessionState.Idle ∧
    SessionState.Transcribing ≠ SessionState.Idle := by
  refine ⟨rfl, ?_, by decide⟩
  decide

theorem sessionStep_matches_refStep (s : Session) (rb : RingBuffer) (op : SessionOp)
    (h1 : op = SessionOp.setTranscribing → s.state = SessionState.Recording)
    (h2 : op = SessionOp.setIdle → s.state = SessionState.Transcribing) :
    (sessionStep (s, rb) op).1.state = refStep s.state op := by
  cases op with
  | start go w =>
    simp only [sessionStep, Session.start_recording, refStep]
    by_cases hs : s.state = SessionState.Idle
    · cases go with
      | true => simp [hs]
      | false => simp [hs]
    · simp [hs]
  | stop =>
    simp only [sessionStep, Session.stop_recording, refStep]
    by_cases hs : s.state = SessionState.Recording
    · simp [hs]
    · simp [hs]
  | setTranscribing =>
    simp [sessionStep, Session.set_transcribing, refStep, h1 rfl]
  | setIdle =>
    simp [sessionStep, Session.set_idle, refStep, h2 rfl]

theorem sessionExec_matches_refExec (ops : List SessionOp) (s : Session) (rb : RingBuffer)
    (hwf : wellFormed s.state ops = true) :
    (sessionExec (s, rb) ops).1.state = refExec s.state ops := by
  induction ops generalizing s rb with
  | nil => rfl
  | cons op rest ih =>
    have h1 : op = SessionOp.setTranscribing → s.state = SessionState.Recording := by
      intro he
      subst he
      simp only [wellFormed, Bool.and_eq_true, decide_eq_true_eq] at hwf
      exact hwf.1
    have h2 : op = SessionOp.setIdle → s.state = SessionState.Transcribing := by
      intro he
      subst he
      simp only [wellFormed, Bool.and_eq_true, decide_eq_true_eq] at hwf
      exact hwf.1
    have hrest : wellFormed (refStep s.state op) rest = true := by
      cases op with
      | start go w => simpa [wellFormed] using hwf
      | stop => simpa [wellFormed] using hwf
      | setTranscribing =>
        simp only [wellFormed, Bool.and_eq_true, decide_eq_true_eq] at hwf
        exact hwf.2
      | setIdle =>
        simp only [wellFormed, Bool.and_eq_true, decide_eq_true_eq] at hwf
        exact hwf.2
    have hstep : (sessionStep (s, rb) op).1.state = refStep s.state op :=
      sessionStep_matches_refStep s rb op h1 h2
    show (sessionExec (sessionStep (s, rb) op) rest).1.state = refExec (refStep s.state op) rest
    rw [← hstep]
    exact ih (sessionStep (s, rb) op).1 (sessionStep (s, rb) op).2 (by
      rw [hstep]
      exact hrest)

/-- C3 (amended): the claim holds for the guarded operations and for
well-formed sequences.  (a) For every finite sequence from Idle in which
the orchestrator's unconditional writes `set_transcribing` / `set_idle`
are used only where the automaton permits that transition, the code's
resulting state equals the reference automaton's.  (b) `start_recording`
outside Idle is rejected and leaves the session unchanged.  (c) If the
producer fails to start, the session stays Idle.  (d) `stop_recording`
outside Recording returns no samples and leaves the session unchanged.
Unrestricted use of the unconditional writes breaks the correspondence
(see the counterexample). -/
theorem session_automaton_amended :
    (∀ ops : List SessionOp, ∀ rb : RingBuffer,
      wellFormed SessionState.Idle ops = true →
      (sessionExec (sessionInit, rb) ops).1.state = refExec SessionState.Idle ops) ∧
    (∀ s : Session, ∀ rb go w, s.state ≠ SessionState.Idle →
      (s.start_recording rb go w).1 = s ∧ (s.start_recording rb go w).2.2 = false) ∧
    (∀ s : Session, ∀ rb w, (s.start_recording rb false w).1 = s) ∧
    (∀ s : Session, ∀ rb, s.state ≠ SessionState.Recording →
      (s.stop_recording rb).1 = s ∧ (s.stop_recording rb).2.2 = []) := by
  refine ⟨?_, ?_, ?_, ?_⟩
  · intro ops rb hwf
    exact sessionExec_matches_refExec ops sessionInit rb hwf
  · intro s rb go w hs
    simp [Session.start_recording, hs]
  · intro s rb w
    by_cases hs : s.state = SessionState.Idle
    · simp [Session.start_recording, hs]
    · simp [Session.start_recording, hs]
  · intro s rb hs
    simp [Session.stop_recording, hs]

/-- C3 witness: the amended correspondence on a concrete well-formed
run (start, stop, set_idle), and the rejection facts at concrete
mis-states. -/
theorem session_automaton_amended_witness :
    ((sessionExec (sessionInit, ringInit)
        [SessionOp.start true emptyWindow, SessionOp.stop, SessionOp.setIdle]).1.state
      = refExec SessionState.Idle
        [SessionOp.start true emptyWindow, SessionOp.stop, SessionOp.setIdle]) ∧
    (Session.start_recording ⟨SessionState.Recording, emptyWindow⟩ ringInit true emptyWindow).2.2
      = false ∧
    (Session.stop_recording ⟨SessionState.Idle, emptyWindow⟩ ringInit).2.2 = [] := by
  refine ⟨?_, ?_, ?_⟩
  · exact session_automaton_amended.1 _ ringInit (by decide)
  · exact (session_automaton_amended.2.1 ⟨SessionState.Recording, emptyWindow⟩ ringInit
      true emptyWindow (by decide)).2
  · exact (session_automaton_amended.2.2.2 ⟨SessionState.Idle, emptyWindow⟩ ringInit
      (by decide)).2

/-! ## Core facade (src/daemon/daemon_core.cpp; the identical handler
bodies also appear in EventLoop, src/daemon/event_loop.cpp)

JSON frames are modelled structurally: a response is a `status` string
plus the optional fields the daemon ever sets, and a parsed request is
its `cmd` string with the optional `output` / `limit` fields that
`cmd.value(...)` reads.  Doubles (durations) are exact rationals.  The
external collaborators appear as inputs: whether the audio producer
starts, what the agent detector returns, the wall-clock recording
duration, the transcription result, and whether the output factory
produces an adapter. -/

structure DetectionResult where
  agent : String
  working_dir : String
deriving DecidableEq

structure JsonCmd where
  cmd : String
  output : Option String := none
  limit : Option Int := none
deriving DecidableEq

structure HistoryRecord where
  text : String
  audio_duration : Rat
  processing_time : Rat
  context : WindowInfo
  backend : String
deriving DecidableEq

structure Frame where
  status : String
  message : Option String := none
  text : Option String := none
  duration : Option Rat := none
  processing : Option Rat := none
  state : Option String := none
  entries : Option (List HistoryRecord) := none
deriving DecidableEq

structure TranscriptResult where
  text : String
  duration_s : Rat
  processing_s : Rat
deriving DecidableEq

deriving instance DecidableEq for Except

/-- The worker's single-writer result slot (`WorkerResult` in
daemon_core.hpp): the backend outcome plus the window context and output
method captured when the worker was spawned. -/
structure WorkerResult where
  result : Except String TranscriptResult
  context : WindowInfo
  output_method : String
deriving DecidableEq

structure Config where
  sampleRate : Nat
  defaultMethod : String
  backendType : String
deriving DecidableEq

structure CoreState where
  session : Session
  ring : RingBuffer
  focusedWindow : WindowInfo
  pendingOutputMethod : String
  waitingClients : List Int
  history : List HistoryRecord
  worker : Option (List Nat × WindowInfo × String)
deriving DecidableEq

/-- DaemonCore::enrich_window_info (daemon_core.cpp, lines 231-244); the
agent detector's answer for the snapshot's pid is the external input
`detection`. -/
def enrich_window_info (info : WindowInfo) (detection : DetectionResult) : WindowInfo :=
  if info.pid > 0 then
    let app := if info.app_id ≠ "" then info.app_id else info.window_class
    if detection.agent ≠ "" then
      { info with agent := detection.agent, working_dir := detection.working_dir,
                  context := detection.agent ++ " code on " ++ app }
    else { info with context := app }
  else info

/-- DaemonCore::handle_start (daemon_core.cpp, lines 59-73). -/
def handle_start (cfg : Config) (st : CoreState) (c : JsonCmd)
    (captureStarts : Bool) (detection : DetectionResult) : CoreState × Frame :=
  if st.session.state ≠ SessionState.Idle then
    (st, { status := "error", message := some "already recording or transcribing" })
  else
    let st1 := { st with pendingOutputMethod := c.output.getD cfg.defaultMethod }
    let w := enrich_window_info st1.focusedWindow detection
    let r := st1.session.start_recording st1.ring captureStarts w
    let st2 := { st1 with session := r.1, ring := r.2.1 }
    if r.2.2 then (st2, { status := "ok", message := some "recording" })
    else (st2, { status := "error", message := some "failed to start recording" })

/-- DaemonCore::handle_stop (daemon_core.cpp, lines 75-92).  On a
successful stop it spawns the transcription worker
(`start_transcription`), recorded here in the `worker` slot. -/
def handle_stop (cfg : Config) (st : CoreState) : CoreState × Frame :=
  if st.session.state ≠ SessionState.Recording then
    (st, { status := "error", message := some "not recording" })
  else
    let r := st.session.stop_recording st.ring
    if r.2.2.isEmpty then
      ({ st with session := r.1.set_idle, ring := r.2.1 },
       { status := "error", message := some "no audio captured" })
    else
      let duration : Rat := (r.2.2.length : Rat) / (cfg.sampleRate : Rat)
      ({ st with session := r.1, ring := r.2.1,
                 worker := some (r.2.2, r.1.windowContext, st.pendingOutputMethod) },
       { status := "transcribing", duration := some duration })

/-- DaemonCore::handle_status (daemon_core.cpp, lines 101-116); the
wall-clock recording duration is the external input `recDuration`. -/
def handle_status (st : CoreState) (recDuration : Rat) : CoreState × Frame :=
  match st.session.state with
  | SessionState.Idle => (st, { status := "ok", state := some "idle" })
  | SessionState.Recording =>
      (st, { status := "ok", state := some "recording", duration := some recDuration })
  | SessionState.Transcribing => (st, { status := "ok", state := some "transcribing" })

/-- DaemonCore::handle_history (daemon_core.cpp, lines 118-134).  The
history store's `recent(limit)` returns the newest records first
(ORDER BY id DESC LIMIT limit; a negative limit means no limit in
SQLite). -/
def handle_history (st : CoreState) (c : JsonCmd) : CoreState × Frame :=
  let limit := c.limit.getD 10
  let entries := if limit < 0 then st.history.reverse
                 else st.history.reverse.take limit.toNat
  (st, { status := "ok", entries := some entries })

/-- The external inputs one command dispatch can consume. -/
structure CmdEnv where
  captureStarts : Bool
  detection : DetectionResult
  recDuration : Rat
deriving DecidableEq

/-- DaemonCore::handle_command (daemon_core.cpp, lines 49-57), routing on
the `cmd` field, with `toggle` inlined as in handle_toggle (lines
94-99). -/
def handle_command (cfg : Config) (st : CoreState) (c : JsonCmd) (env : CmdEnv) :
    CoreState × Frame :=
  if c.cmd = "start" then handle_start cfg st c env.captureStarts env.detection
  else if c.cmd = "stop" then handle_stop cfg st
  else if c.cmd = "toggle" then
    (if st.session.state = SessionState.Recording then handle_stop cfg st
     else handle_start cfg st c env.captureStarts env.detection)
  else if c.cmd = "status" then handle_status st env.recDuration
  else if c.cmd = "history" then handle_history st c
  else (st, { status := "error", message := some "unknown command" })

/-- DaemonCore::on_transcription_complete (daemon_core.cpp, lines
154-204): join the worker, read the result slot, build the response;
on success attempt output delivery (only when the factory produced an
adapter and the text is non-empty) and insert a history record; then send
the response to every waiting client in queue order, clear the waiting
list and set the session Idle.  Returns the new core state, the frames
written (fd paired with frame, in order) and whether an output delivery
was attempted. -/
def on_transcription_complete (cfg : Config) (st : CoreState) (wr : WorkerResult)
    (factoryOk : Bool) : CoreState × List (Int × Frame) × Bool :=
  match wr.result with
  | Except.ok tr =>
      let attempted := factoryOk && !(tr.text == "")
      let record : HistoryRecord :=
        { text := tr.text, audio_duration := tr.duration_s,
          processing_time := tr.processing_s, context := wr.context,
          backend := cfg.backendType }
      let response : Frame :=
        { status := "ok", text := some tr.text, duration := some tr.duration_s,
          processing := some tr.processing_s }
      ({ st with history := st.history ++ [record], waitingClients := [],
                 session := st.session.set_idle, worker := none },
       st.waitingClients.map (fun fd => (fd, response)), attempted)
  | Except.error msg =>
      let response : Frame := { status := "error", message := some msg }
      ({ st with waitingClients := [], session := st.session.set_idle, worker := none },
       st.waitingClients.map (fun fd => (fd, response)), false)

/-! ## IPC command codec (src/daemon/ipc_server.cpp)

`IpcServer` keeps one append-only byte buffer per connection.
`read_command` performs one `recv` (at most 4096 bytes; a result of zero
or less means disconnect or error and is modelled by an empty chunk),
appends it, looks for the first newline (byte 10), consumes the prefix up
to and including it and hands the line to the JSON parser.  The JSON
library is external, so the parser is a parameter: `parse line` is `some`
parsed command exactly when `nlohmann::json::parse` succeeds.  The C++
function returns a single bool, so disconnect, a chunk without a newline
and a parse failure are all reported identically as failure. -/

def lookupClient (clients : List (Int × List Nat)) (fd : Int) : Option (List Nat) :=
  (clients.find? (fun c => c.1 == fd)).map (fun c => c.2)

def updateClient (clients : List (Int × List Nat)) (fd : Int) (buf : List Nat) :
    List (Int × List Nat) :=
  clients.map (fun c => if c.1 == fd then (fd, buf) else c)

/-- IpcServer::close_client uses std::erase_if, removing every entry with
the fd. -/
def removeClient (clients : List (Int × List Nat)) (fd : Int) : List (Int × List Nat) :=
  clients.filter (fun c => !(c.1 == fd))

/-- IpcServer::read_command (ipc_server.cpp, lines 80-103).  Returns the
updated client table and the parsed command when a full frame was read
and parsed. -/
def read_command (parse : List Nat → Option JsonCmd) (clients : List (Int × List Nat))
    (fd : Int) (recvd : List Nat) : List (Int × List Nat) × Option JsonCmd :=
  match lookupClient clients fd with
  | none => (clients, none)
  | some buf =>
    if recvd.isEmpty then (clients, none)
    else
      let buf1 := buf ++ recvd
      match buf1.findIdx? (fun b => b == 10) with
      | none => (updateClient clients fd buf1, none)
      | some pos =>
          (updateClient clients fd (buf1.drop (pos + 1)), parse (buf1.take pos))

/-! ## Dispatcher (EventLoop::run, event_loop.cpp lines 176-266; the
platform split runs the same loop body in LinuxEventLoop::run around
DaemonCore).  One `loopStep` is the handling of one ready epoll event. -/

structure LoopState where
  core : CoreState
  server : List (Int × List Nat)
  registered : List Int
  running : Bool
deriving DecidableEq

/-- One readiness event together with the external inputs its handling
consumes.  `accept` carries the fd returned by accept4 (negative on
failure); `workerDone` carries the result slot contents written by the
worker thread and whether the output factory yields an adapter; `focus`
carries the snapshot when `read_event` succeeded; `clientData` carries
the bytes `recv` returned for a ready client (empty meaning disconnect
or error). -/
inductive LoopEvent
  | signal
  | accept (fd : Int)
  | workerDone (wr : WorkerResult) (factoryOk : Bool)
  | focus (w : Option WindowInfo)
  | clientData (fd : Int) (recvd : List Nat) (env : CmdEnv)

/-- Externally visible effects of one dispatcher step: frames written to
connections (in order), connections closed, and whether an output
delivery was attempted. -/
structure StepOut where
  sent : List (Int × Frame) := []
  closed : List Int := []
  deliveryAttempted : Bool := false
deriving DecidableEq

def loopStep (cfg : Config) (parse : List Nat → Option JsonCmd) (st : LoopState)
    (ev : LoopEvent) : LoopState × StepOut :=
  match ev with
  | LoopEvent.signal => ({ st with running := false }, {})
  | LoopEvent.accept fd =>
      if 0 ≤ fd then
        ({ st with server := st.server ++ [(fd, [])],
                   registered := st.registered ++ [fd] }, {})
      else (st, {})
  | LoopEvent.workerDone wr factoryOk =>
      let r := on_transcription_complete cfg st.core wr factoryOk
      ({ st with core := r.1 }, { sent := r.2.1, deliveryAttempted := r.2.2 })
  | LoopEvent.focus none => (st, {})
  | LoopEvent.focus (some w) =>
      ({ st with core := { st.core with focusedWindow := w } }, {})
  | LoopEvent.clientData fd recvd env =>
      let rc := read_command parse st.server fd recvd
      match rc.2 with
      | some c =>
          let hc := handle_command cfg st.core c env
          if hc.2.status = "transcribing" then
            ({ st with core := { hc.1 with waitingClients := hc.1.waitingClients ++ [fd] },
                       server := rc.1 }, {})
          else
            ({ st with core := hc.1, server := rc.1 }, { sent := [(fd, hc.2)] })
      | none =>
          ({ st with server := removeClient rc.1 fd,
                     registered := st.registered.filter (fun x => !(x == fd)),
                     core := { st.core with
                       waitingClients := st.core.waitingClients.filter (fun x => !(x == fd)) } },
           { closed := [fd] })

/-! ## Claim theorems for the core facade and dispatcher -/

/-- C1: for every stop command, (a) outside Recording the handler replies
error "not recording" and leaves the whole core state unchanged; (b) in
Recording with an empty drain it replies error "no audio captured" and
the session is Idle afterwards; (c) otherwise it records the worker spawn
(with the drained samples, the turn's snapshot and output method) and
replies status "transcribing" with duration = drained sample count
divided by the sample rate. -/
theorem handle_stop_spec (cfg : Config) (st : CoreState) :
    (st.session.state ≠ SessionState.Recording →
      handle_stop cfg st = (st, { status := "error", message := some "not recording" })) ∧
    (st.session.state = SessionState.Recording →
      ((st.ring.drain_all).2 = [] →
        (handle_stop cfg st).2 = { status := "error", message := some "no audio captured" } ∧
        (handle_stop cfg st).1.session.state = SessionState.Idle) ∧
      ((st.ring.drain_all).2 ≠ [] →
        (handle_stop cfg st).1.worker =
          some ((st.ring.drain_all).2, st.session.windowContext, st.pendingOutputMethod) ∧
        (handle_stop cfg st).2 =
          { status := "transcribing",
            duration := some (((st.ring.drain_all).2.length : Rat) / (cfg.sampleRate : Rat)) } ∧
        (handle_stop cfg st).1.session.state = SessionState.Transcribing)) := by
  constructor
  · intro hs
    simp [handle_stop, hs]
  · intro hs
    constructor
    · intro hdrain
      simp [handle_stop, hs, Session.stop_recording, hdrain, Session.set_idle]
    · intro hdrain
      simp [handle_stop, hs, Session.stop_recording, hdrain, List.isEmpty_iff]

/-- C1 witness: in Recording over a ring holding four bytes, stop
answers with status transcribing and moves to Transcribing. -/
theorem handle_stop_spec_witness :
    ((⟨⟨SessionState.Recording, emptyWindow⟩, ⟨[1, 0, 2, 0], 4, 0⟩, emptyWindow,
        "clipboard", [], [], none⟩ : CoreState).ring.drain_all).2 ≠ [] ∧
    (handle_stop ⟨16000, "clipboard", "lan"⟩
      ⟨⟨SessionState.Recording, emptyWindow⟩, ⟨[1, 0, 2, 0], 4, 0⟩, emptyWindow,
        "clipboard", [], [], none⟩).1.session.state = SessionState.Transcribing := by
  refine ⟨by decide, ?_⟩
  exact (((handle_stop_spec ⟨16000, "clipboard", "lan"⟩
    ⟨⟨SessionState.Recording, emptyWindow⟩, ⟨[1, 0, 2, 0], 4, 0⟩, emptyWindow,
      "clipboard", [], [], none⟩).2 rfl).2 (by decide)).2.2

/-- The response frame `on_transcription_complete` builds: on success
status ok with text, duration and processing time; on failure status
error with the message. -/
def completionFrame (wr : WorkerResult) : Frame :=
  match wr.result with
  | Except.ok tr =>
      { status := "ok", text := some tr.text, duration := some tr.duration_s,
        processing := some tr.processing_s }
  | Except.error msg => { status := "error", message := some msg }

/-- C2: (a) no dispatcher step ever writes a frame whose status is
"transcribing" to any connection; (b) when a parsed command's response
carries that sentinel status, nothing is sent and the connection is
appended to the waiting list; (c) on worker completion the built response
(ok with text/duration/processing_time, or error with message) is sent to
every waiting connection in queue order, the waiting list is emptied, a
history record is inserted exactly when the result is a success, and the
session is set Idle. -/
theorem deferred_response_spec (cfg : Config) (parse : List Nat → Option JsonCmd)
    (st : LoopState) :
    (∀ ev : LoopEvent, ∀ p ∈ (loopStep cfg parse st ev).2.sent,
      p.2.status ≠ "transcribing") ∧
    (∀ fd recvd env c, (read_command parse st.server fd recvd).2 = some c →
      (handle_command cfg st.core c env).2.status = "transcribing" →
      (loopStep cfg parse st (LoopEvent.clientData fd recvd env)).2.sent = [] ∧
      (loopStep cfg parse st (LoopEvent.clientData fd recvd env)).1.core.waitingClients
        = (handle_command cfg st.core c env).1.waitingClients ++ [fd]) ∧
    (∀ wr factoryOk,
      (loopStep cfg parse st (LoopEvent.workerDone wr factoryOk)).2.sent
        = st.core.waitingClients.map (fun fd => (fd, completionFrame wr)) ∧
      (loopStep cfg parse st (LoopEvent.workerDone wr factoryOk)).1.core.waitingClients
        = [] ∧
      (loopStep cfg parse st (LoopEvent.workerDone wr factoryOk)).1.core.session.state
        = SessionState.Idle ∧
      (∀ tr, wr.result = Except.ok tr →
        (loopStep cfg parse st (LoopEvent.workerDone wr factoryOk)).1.core.history
          = st.core.history ++
            [{ text := tr.text, audio_duration := tr.duration_s,
               processing_time := tr.processing_s, context := wr.context,
               backend := cfg.backendType }]) ∧
      (∀ msg, wr.result = Except.error msg →
        (loopStep cfg parse st (LoopEvent.workerDone wr factoryOk)).1.core.history
          = st.core.history)) := by
  refine ⟨?_, ?_, ?_⟩
  · intro ev p hp
    cases ev with
    | signal => simp [loopStep] at hp
    | accept fd =>
      by_cases h : (0 : Int) ≤ fd
      · simp [loopStep, h] at hp
      · simp [loopStep, h] at hp
    | workerDone wr factoryOk =>
      cases hwr : wr.result with
      | ok tr =>
        simp only [loopStep, on_transcription_complete, hwr] at hp
        simp only [List.mem_map] at hp
        obtain ⟨a, _, rfl⟩ := hp
        simp
      | error msg =>
        simp only [loopStep, on_transcription_complete, hwr] at hp
        simp only [List.mem_map] at hp
        obtain ⟨a, _, rfl⟩ := hp
        simp
    | focus w =>
      cases w with
      | none => simp [loopStep] at hp
      | some wi => simp [loopStep] at hp
    | clientData fd recvd env =>
      cases hrc : (read_command parse st.server fd recvd).2 with
      | none => simp [loopStep, hrc] at hp
      | some c =>
        by_cases hst : (handle_command cfg st.core c env).2.status = "transcribing"
        · simp [loopStep, hrc, hst] at hp
        · simp only [loopStep, hrc, if_neg hst] at hp
          simp only [List.mem_singleton] at hp
          subst hp
          exact hst
  · intro fd recvd env c hrc hst
    constructor
    · simp [loopStep, hrc, hst]
    · simp [loopStep, hrc, hst]
  · intro wr factoryOk
    cases hwr : wr.result with
    | ok tr =>
      refine ⟨?_, ?_, ?_, ?_, ?_⟩
      · simp [loopStep, on_transcription_complete, hwr, completionFrame]
      · simp [loopStep, on_transcription_complete, hwr]
      · simp [loopStep, on_transcription_complete, hwr, Session.set_idle]
      · intro tr2 htr2
        injection htr2 with he
        subst he
        simp [loopStep, on_transcription_complete, hwr]
      · intro msg hmsg
        exact absurd hmsg (by simp)
    | error msg =>
      refine ⟨?_, ?_, ?_, ?_, ?_⟩
      · simp [loopStep, on_transcription_complete, hwr, completionFrame]
      · simp [loopStep, on_transcription_complete, hwr]
      · simp [loopStep, on_transcription_complete, hwr, Session.set_idle]
      · intro tr2 htr2
        exact absurd htr2 (by simp)
      · intro msg2 hmsg2
        simp [loopStep, on_transcription_complete, hwr]

/-- C2 witness: worker completion at a concrete state with two waiting
connections and a successful result fans the ok frame out to both, in
order, and inserts one history record. -/
theorem deferred_response_spec_witness :
    (loopStep ⟨16000, "clipboard", "lan"⟩ (fun _ => none)
      ⟨⟨⟨SessionState.Transcribing, emptyWindow⟩, ringInit, emptyWindow, "clipboard",
        [5, 7], [], none⟩, [], [5, 7], true⟩
      (LoopEvent.workerDone ⟨Except.ok ⟨"hi", 1, (1 : Rat) / 8⟩, emptyWindow, "clipboard"⟩
        true)).2.sent
      = [(5, completionFrame ⟨Except.ok ⟨"hi", 1, (1 : Rat) / 8⟩, emptyWindow, "clipboard"⟩),
         (7, completionFrame ⟨Except.ok ⟨"hi", 1, (1 : Rat) / 8⟩, emptyWindow, "clipboard"⟩)] ∧
    (loopStep ⟨16000, "clipboard", "lan"⟩ (fun _ => none)
      ⟨⟨⟨SessionState.Transcribing, emptyWindow⟩, ringInit, emptyWindow, "clipboard",
        [5, 7], [], none⟩, [], [5, 7], true⟩
      (LoopEvent.workerDone ⟨Except.ok ⟨"hi", 1, (1 : Rat) / 8⟩, emptyWindow, "clipboard"⟩
        true)).1.core.session.state = SessionState.Idle := by
  have h := (deferred_response_spec ⟨16000, "clipboard", "lan"⟩ (fun _ => none)
    ⟨⟨⟨SessionState.Transcribing, emptyWindow⟩, ringInit, emptyWindow, "clipboard",
      [5, 7], [], none⟩, [], [5, 7], true⟩).2.2
    ⟨Except.ok ⟨"hi", 1, (1 : Rat) / 8⟩, emptyWindow, "clipboard"⟩ true
  exact ⟨h.1, h.2.2.1⟩

/-- C8: (a) a focus-change event replaces only the process-wide
focused-window cache and produces no output: the session (and with it the
turn's captured snapshot) is untouched; (b) mid-turn (session not Idle)
no dispatcher event whatsoever changes the captured snapshot; (c) the
cache is read exactly when a recording starts: a successful `start` (or
`toggle` from Idle) sets the snapshot to the enriched cache contents. -/
theorem snapshot_immutable_spec (cfg : Config) (parse : List Nat → Option JsonCmd) :
    (∀ st : LoopState, ∀ w,
      loopStep cfg parse st (LoopEvent.focus (some w))
        = ({ st with core := { st.core with focusedWindow := w } }, {})) ∧
    (∀ st : LoopState, ∀ ev, st.core.session.state ≠ SessionState.Idle →
      (loopStep cfg parse st ev).1.core.session.windowContext
        = st.core.session.windowContext) ∧
    (∀ st : LoopState, ∀ fd recvd env c,
      st.core.session.state = SessionState.Idle →
      (read_command parse st.server fd recvd).2 = some c →
      (c.cmd = "start" ∨ c.cmd = "toggle") →
      env.captureStarts = true →
      (loopStep cfg parse st (LoopEvent.clientData fd recvd env)).1.core.session.windowContext
        = enrich_window_info st.core.focusedWindow env.detection) := by
  refine ⟨?_, ?_, ?_⟩
  · intro st w
    simp [loopStep]
  · intro st ev hne
    cases ev with
    | signal => rfl
    | accept fd =>
      by_cases h : (0 : Int) ≤ fd
      · simp [loopStep, h]
      · simp [loopStep, h]
    | workerDone wr factoryOk =>
      cases hwr : wr.result with
      | ok tr => simp [loopStep, on_transcription_complete, hwr, Session.set_idle]
      | error msg => simp [loopStep, on_transcription_complete, hwr, Session.set_idle]
    | focus w =>
      cases w with
      | none => rfl
      | some wi => simp [loopStep]
    | clientData fd recvd env =>
      cases hrc : (read_command parse st.server fd recvd).2 with
      | none => simp [loopStep, hrc]
      | some c =>
        have hstop2 : (handle_stop cfg st.core).1.session.windowContext
            = st.core.session.windowContext := by
          simp only [handle_stop, Session.stop_recording, Session.set_idle]
          split_ifs <;> simp
        have hstart2 : (handle_start cfg st.core c env.captureStarts
            env.detection).1.session.windowContext = st.core.session.windowContext := by
          simp [handle_start, hne]
        have hstatus2 : (handle_status st.core env.recDuration).1.session.windowContext
            = st.core.session.windowContext := by
          unfold handle_status
          cases st.core.session.state <;> rfl
        have hcore : (handle_command cfg st.core c env).1.session.windowContext
            = st.core.session.windowContext := by
          unfold handle_command
          split_ifs <;> simp [hstop2, hstart2, hstatus2, handle_history]
        by_cases hst : (handle_command cfg st.core c env).2.status = "transcribing"
        · simp only [loopStep, hrc, if_pos hst]
          exact hcore
        · simp only [loopStep, hrc, if_neg hst]
          exact hcore
  · intro st fd recvd env c hidle hrc hcmd hgo
    have hstart : (handle_start cfg st.core c env.captureStarts env.detection).1.session.windowContext
        = enrich_window_info st.core.focusedWindow env.detection ∧
        (handle_start cfg st.core c env.captureStarts env.detection).2.status ≠ "transcribing" := by
      rw [hgo]
      simp [handle_start, hidle, Session.start_recording]
    have hroute : handle_command cfg st.core c env
        = handle_start cfg st.core c env.captureStarts env.detection := by
      unfold handle_command
      rcases hcmd with h | h
      · simp [h]
      · simp [h, hidle]
    simp only [loopStep, hrc]
    rw [hroute]
    rw [if_neg hstart.2]
    exact hstart.1

/-- C8 witness: mid-recording, a focus event leaves the captured snapshot
unchanged at a concrete state. -/
theorem snapshot_immutable_spec_witness :
    (loopStep ⟨16000, "clipboard", "lan"⟩ (fun _ => none)
      ⟨⟨⟨SessionState.Recording, emptyWindow⟩, ringInit, emptyWindow, "clipboard",
        [], [], none⟩, [], [], true⟩
      (LoopEvent.focus (some ⟨"kitty", "", "t", 3, "", "", ""⟩))).1.core.session.windowContext
      = emptyWindow :=
  (snapshot_immutable_spec ⟨16000, "clipboard", "lan"⟩ (fun _ => none)).2.1
    ⟨⟨⟨SessionState.Recording, emptyWindow⟩, ringInit, emptyWindow, "clipboard",
      [], [], none⟩, [], [], true⟩
    (LoopEvent.focus (some ⟨"kitty", "", "t", 3, "", "", ""⟩)) (by decide)

/-- C10: when the worker result is a success whose text is the empty
string, no output-adapter delivery is attempted (whatever the factory
would return), yet a history record carrying the empty text is still
inserted and every waiting client receives the ok frame with empty text
and the result's duration and processing time, in queue order. -/
theorem empty_text_completion_spec (cfg : Config) (st : CoreState) (wr : WorkerResult)
    (factoryOk : Bool) (tr : TranscriptResult)
    (hres : wr.result = Except.ok tr) (htext : tr.text = "") :
    (on_transcription_complete cfg st wr factoryOk).2.2 = false ∧
    (on_transcription_complete cfg st wr factoryOk).1.history
      = st.history ++
        [{ text := "", audio_duration := tr.duration_s,
           processing_time := tr.processing_s, context := wr.context,
           backend := cfg.backendType }] ∧
    (on_transcription_complete cfg st wr factoryOk).2.1
      = st.waitingClients.map (fun fd =>
          (fd, { status := "ok", text := some "", duration := some tr.duration_s,
                 processing := some tr.processing_s })) := by
  refine ⟨?_, ?_, ?_⟩
  · simp [on_transcription_complete, hres, htext]
  · simp [on_transcription_complete, hres, htext]
  · simp [on_transcription_complete, hres, htext]

/-- C10 witness: concrete completion with empty text, one waiting client
and an adapter-producing factory. -/
theorem empty_text_completion_spec_witness :
    (on_transcription_complete ⟨16000, "clipboard", "lan"⟩
      ⟨⟨SessionState.Transcribing, emptyWindow⟩, ringInit, emptyWindow, "clipboard",
        [4], [], none⟩
      ⟨Except.ok ⟨"", 2, 1⟩, emptyWindow, "type"⟩ true).2.2 = false ∧
    (on_transcription_complete ⟨16000, "clipboard", "lan"⟩
      ⟨⟨SessionState.Transcribing, emptyWindow⟩, ringInit, emptyWindow, "clipboard",
        [4], [], none⟩
      ⟨Except.ok ⟨"", 2, 1⟩, emptyWindow, "type"⟩ true).2.1
      = [(4, { status := "ok", text := some "", duration := some 2,
               processing := some 1 })] := by
  have h := empty_text_completion_spec ⟨16000, "clipboard", "lan"⟩
    ⟨⟨SessionState.Transcribing, emptyWindow⟩, ringInit, emptyWindow, "clipboard",
      [4], [], none⟩
    ⟨Except.ok ⟨"", 2, 1⟩, emptyWindow, "type"⟩ true ⟨"", 2, 1⟩ rfl rfl
  exact ⟨h.1, h.2.2⟩

/-! ## Concrete fixtures for the codec claims -/

def cfgEx : Config := ⟨16000, "clipboard", "lan"⟩

def coreIdle : CoreState :=
  ⟨⟨SessionState.Idle, emptyWindow⟩, ringInit, emptyWindow, "clipboard", [], [], none⟩

def envEx : CmdEnv := ⟨true, ⟨"", ""⟩, 0⟩

/-- A concrete stand-in for the external JSON parser: it accepts exactly
the two-byte line \x7b\x7d (an empty JSON object, which nlohmann parses
successfully) as a status command and rejects everything else. -/
def parseStub : List Nat → Option JsonCmd :=
  fun l => if l = [123, 125] then some { cmd := "status" } else none

/-- C4 counterexample: the claim is false as stated.  A connection whose
read yields one byte and no newline (a partial frame) is not kept open:
`read_command` reports the same failure as a disconnect, and the
dispatcher (EventLoop::run) deregisters, closes and removes it. -/
theorem need_more_counterexample :
    (loopStep cfgEx parseStub ⟨coreIdle, [(0, [])], [0], true⟩
      (LoopEvent.clientData 0 [123] envEx)).1.registered = [] ∧
    (loopStep cfgEx parseStub ⟨coreIdle, [(0, [])], [0], true⟩
      (LoopEvent.clientData 0 [123] envEx)).1.server = [] ∧
    (loopStep cfgEx parseStub ⟨coreIdle, [(0, [])], [0], true⟩
      (LoopEvent.clientData 0 [123] envEx)).2.closed = [0] := by
  decide

/-- C4 (amended): the codec does not report need_more as a distinct
outcome.  (i) A read with data but no newline appends to the buffer and
reports the same failure as a disconnect; (ii) on a malformed frame the
buffer is consumed up to and including the newline and failure is
reported; (iii) a read of zero or fewer bytes (disconnect or error)
reports failure; (iv) on every failed read the dispatcher deregisters,
closes and removes the connection from the waiting list, so a partial
frame also closes the connection; (v) only a successfully parsed frame
keeps the connection open and registered. -/
theorem read_failure_spec (cfg : Config) (parse : List Nat → Option JsonCmd)
    (st : LoopState) (fd : Int) :
    (∀ buf recvd, lookupClient st.server fd = some buf → recvd ≠ [] →
      (buf ++ recvd).findIdx? (fun b => b == 10) = none →
      read_command parse st.server fd recvd
        = (updateClient st.server fd (buf ++ recvd), none)) ∧
    (∀ buf recvd pos, lookupClient st.server fd = some buf → recvd ≠ [] →
      (buf ++ recvd).findIdx? (fun b => b == 10) = some pos →
      parse ((buf ++ recvd).take pos) = none →
      read_command parse st.server fd recvd
        = (updateClient st.server fd ((buf ++ recvd).drop (pos + 1)), none)) ∧
    (∀ buf, lookupClient st.server fd = some buf →
      read_command parse st.server fd [] = (st.server, none)) ∧
    (∀ recvd env, (read_command parse st.server fd recvd).2 = none →
      loopStep cfg parse st (LoopEvent.clientData fd recvd env)
        = ({ st with
              server := removeClient (read_command parse st.server fd recvd).1 fd,
              registered := st.registered.filter (fun x => !(x == fd)),
              core := { st.core with
                waitingClients :=
                  st.core.waitingClients.filter (fun x => !(x == fd)) } },
           { closed := [fd] })) ∧
    (∀ recvd env c, (read_command parse st.server fd recvd).2 = some c →
      (loopStep cfg parse st (LoopEvent.clientData fd recvd env)).2.closed = [] ∧
      (loopStep cfg parse st (LoopEvent.clientData fd recvd env)).1.registered
        = st.registered) := by
  refine ⟨?_, ?_, ?_, ?_, ?_⟩
  · intro buf recvd hlook hne hfi
    simp [read_command, hlook, hne, hfi, List.isEmpty_iff]
  · intro buf recvd pos hlook hne hfi hparse
    simp [read_command, hlook, hne, hfi, hparse, List.isEmpty_iff]
  · intro buf hlook
    simp [read_command, hlook]
  · intro recvd env hrc
    simp only [loopStep, hrc]
  · intro recvd env c hrc
    simp only [loopStep, hrc]
    by_cases hst : (handle_command cfg st.core c env).2.status = "transcribing"
    · simp [hst]
    · simp [hst]

/-- C4 witness: the amended behaviour at concrete inputs: a one-byte read
with no newline appends and fails, and the dispatcher step closes the
connection. -/
theorem read_failure_spec_witness :
    read_command parseStub [((0 : Int), ([] : List Nat))] 0 [123]
      = (updateClient [((0 : Int), ([] : List Nat))] 0 [123], none) ∧
    loopStep cfgEx parseStub ⟨coreIdle, [(0, [])], [0], true⟩
      (LoopEvent.clientData 0 [123] envEx)
      = (⟨coreIdle, [], [], true⟩, { closed := [0] }) := by
  constructor
  · exact (read_failure_spec cfgEx parseStub ⟨coreIdle, [(0, [])], [0], true⟩ 0).1
      [] [123] (by decide) (by decide) (by decide)
  · have h := (read_failure_spec cfgEx parseStub ⟨coreIdle, [(0, [])], [0], true⟩ 0).2.2.2.1
      [123] envEx (by decide)
    rw [h]
    decide

/-! ## C5: the per-connection buffer has no cap

The spec requires the implementation to cap per-connection buffers
(suggested 64 KiB) and close a connection that exceeds the cap with a
malformed-frame error.  `IpcServer::read_command` has no size check at
all.  A client that keeps sending complete tiny frames faster than the
dispatcher consumes them grows its buffer without bound: each readiness
tick appends one recv chunk (up to 4096 bytes) and removes only the first
frame.  The run below feeds 17 chunks of 4095 bytes (1365 copies of the
three-byte frame \x7b\x7d\n, within the 4096-byte recv limit); every read
parses one frame successfully, the connection stays open and registered,
and the buffer ends at 69564 bytes, beyond the 64 KiB cap the claim
asserts. -/

/-- n copies of the three-byte frame \x7b\x7d\n (an empty JSON object
plus newline). -/
def flatRep : Nat → List Nat
  | 0 => []
  | n + 1 => 123 :: 125 :: 10 :: flatRep n

theorem flatRep_append (a b : Nat) : flatRep a ++ flatRep b = flatRep (a + b) := by
  induction a with
  | zero => simp [flatRep]
  | succ n ih =>
    have harith : n + 1 + b = (n + b) + 1 := by omega
    rw [harith]
    simp only [flatRep, List.cons_append, ih]

theorem flatRep_length (n : Nat) : (flatRep n).length = 3 * n := by
  induction n with
  | zero => rfl
  | succ k ih =>
    simp only [flatRep, List.length_cons, ih]
    omega

theorem flood_step (j : Nat) (regs : List Int) :
    loopStep cfgEx parseStub ⟨coreIdle, [(0, flatRep j)], regs, true⟩
      (LoopEvent.clientData 0 (flatRep 1365) envEx)
      = (⟨coreIdle, [(0, flatRep (j + 1364))], regs, true⟩,
         { sent := [(0, { status := "ok", state := some "idle" })] }) := by
  have hlook : lookupClient [((0 : Int), flatRep j)] 0 = some (flatRep j) := by
    simp [lookupClient]
  have hne : ¬(flatRep 1365).isEmpty := by
    intro h
    have hl := List.isEmpty_iff.mp h
    have := congrArg List.length hl
    rw [flatRep_length] at this
    simp at this
  have hbuf : flatRep j ++ flatRep 1365 = flatRep ((j + 1364) + 1) := by
    rw [flatRep_append]
  have hfi : (flatRep ((j + 1364) + 1)).findIdx? (fun b => b == 10) = some 2 := by
    rw [flatRep]
    simp [List.findIdx?_cons]
  have htake : (flatRep ((j + 1364) + 1)).take 2 = [123, 125] := by
    rw [flatRep]
    simp
  have hdrop : (flatRep ((j + 1364) + 1)).drop (2 + 1) = flatRep (j + 1364) := by
    rw [flatRep]
    simp
  have hrc : read_command parseStub [((0 : Int), flatRep j)] 0 (flatRep 1365)
      = (updateClient [((0 : Int), flatRep j)] 0 (flatRep (j + 1364)),
         some { cmd := "status" }) := by
    simp only [read_command, hlook]
    rw [if_neg hne]
    rw [hbuf, hfi]
    simp [htake, hdrop, parseStub]
  have hupd : updateClient [((0 : Int), flatRep j)] 0 (flatRep (j + 1364))
      = [((0 : Int), flatRep (j + 1364))] := by
    simp [updateClient]
  simp only [loopStep, hrc, hupd]
  simp [handle_command, handle_status, coreIdle]

/-- Iterate the dispatcher step on the flooding client. -/
def iterateFlood : Nat → LoopState → LoopState
  | 0, st => st
  | k + 1, st =>
      iterateFlood k
        (loopStep cfgEx parseStub st (LoopEvent.clientData 0 (flatRep 1365) envEx)).1

theorem iterateFlood_run (k : Nat) : ∀ j : Nat, ∀ regs : List Int,
    iterateFlood k ⟨coreIdle, [(0, flatRep j)], regs, true⟩
      = ⟨coreIdle, [(0, flatRep (j + 1364 * k))], regs, true⟩ := by
  induction k with
  | zero =>
    intro j regs
    simp [iterateFlood]
  | succ n ih =>
    intro j regs
    show iterateFlood n _ = _
    rw [show (loopStep cfgEx parseStub ⟨coreIdle, [(0, flatRep j)], regs, true⟩
      (LoopEvent.clientData 0 (flatRep 1365) envEx)).1
        = ⟨coreIdle, [(0, flatRep (j + 1364))], regs, true⟩ from by rw [flood_step]]
    rw [ih (j + 1364) regs]
    have harith : j + 1364 + 1364 * n = j + 1364 * (n + 1) := by ring
    rw [harith]

/-- C5: code_bug evidence.  Starting from a freshly accepted connection
(empty buffer), 17 readiness ticks each delivering a 4095-byte chunk of
complete frames leave the connection open and registered with a
69564-byte buffer: more than the 64 KiB cap the spec mandates, and
growing without bound if the client continues.  No close with a
malformed-frame error ever happens on this run. -/
theorem connection_buffer_unbounded :
    lookupClient (iterateFlood 17 ⟨coreIdle, [(0, [])], [0], true⟩).server 0
      = some (flatRep 23188) ∧
    (flatRep 23188).length = 69564 ∧
    65536 < 69564 ∧
    (iterateFlood 17 ⟨coreIdle, [(0, [])], [0], true⟩).registered = [0] := by
  have h0 : ([] : List Nat) = flatRep 0 := rfl
  rw [h0, iterateFlood_run 17 0 [0]]
  refine ⟨?_, ?_, by norm_num, rfl⟩
  · simp [lookupClient]
  · rw [flatRep_length]

end SpeakAnywhere
